import Mathlib

/-!
Shallow embedding of the country-score data pipeline
(`src/utils/dataValidation.ts` = `src/unnamed/part_000`, and
`src/utils/dataProcessing.ts`): schema validation, country-name
standardization, and weighted scoring.

JavaScript numbers are modelled as `Option ℚ`: `some q` is the finite
number `q` and `none` is `NaN`; arithmetic propagates `NaN`.  Rows are
association lists from column-header strings to cell values.  A weights
object is a map from the six sector keys to `Option ℚ`, where `none`
models an absent key (so that reading it yields `undefined`, and
multiplying by it yields `NaN`, exactly as in JavaScript).
-/

namespace TechIndex

/-- The six fixed sector keys (`SECTOR_WEIGHTS` / `COLUMN_MAPPINGS`). -/
inductive Sector where
  | ai
  | quantum
  | semiconductors
  | biotech
  | space
  | fintech
deriving DecidableEq, Repr, Fintype

/-- The sectors in the insertion order of the `SECTOR_WEIGHTS` object
literal, which is the order `Object.entries` iterates them. -/
def Sector.all : List Sector :=
  [.ai, .quantum, .semiconductors, .biotech, .space, .fintech]

/-- The internal (lower-case) key of a sector, used in messages. -/
def Sector.key : Sector → String
  | .ai => "ai"
  | .quantum => "quantum"
  | .semiconductors => "semiconductors"
  | .biotech => "biotech"
  | .space => "space"
  | .fintech => "fintech"

/-- The Excel column header of a sector (`COLUMN_MAPPINGS`). -/
def Sector.col : Sector → String
  | .ai => "AI"
  | .quantum => "Quantum"
  | .semiconductors => "Semiconductors"
  | .biotech => "Biotech"
  | .space => "Space"
  | .fintech => "Fintech"

/-- `REQUIRED_COLUMNS` from the validator. -/
def REQUIRED_COLUMNS : List String :=
  ["Country", "AI", "Quantum", "Semiconductors", "Biotech", "Space", "Fintech"]

/-- An untyped spreadsheet cell value. -/
inductive JSVal where
  | vstr (s : String)
  | vnum (q : ℚ)
  | vundef
deriving DecidableEq, Repr

/-- A raw spreadsheet row: a JavaScript object as an association list. -/
abbrev RawRow := List (String × JSVal)

/-- First-match association-list lookup (JavaScript property access). -/
def lookupStr {α : Type} : List (String × α) → String → Option α
  | [], _ => none
  | (k, v) :: t, s => if s = k then some v else lookupStr t s

/-- `row[key]`: reading an absent property yields `undefined`. -/
def rowGet (row : RawRow) (k : String) : JSVal :=
  (lookupStr row k).getD JSVal.vundef

/-- `Object.keys(row)`. -/
def rowKeys (row : RawRow) : List String := row.map Prod.fst

/-- The whitespace characters stripped by `String.prototype.trim`
(restricted to the ASCII ones that can occur in our cell values). -/
def isJSSpace (c : Char) : Bool :=
  c = ' ' || c = '\t' || c = '\n' || c = '\r' || c = '\x0b' || c = '\x0c'

/-- `String.prototype.trim`. -/
def jsTrim (s : String) : String :=
  String.mk (((s.toList.dropWhile isJSSpace).reverse.dropWhile isJSSpace).reverse)

/-- Numeric value of a digit string (most significant first). -/
def digitsToNat (l : List Char) : ℕ :=
  l.foldl (fun a c => 10 * a + (c.toNat - 48)) 0

/-- Exponent digits after `e`/`E` (with optional sign); if no digit
follows, `parseFloat` ignores the exponent marker. -/
def expDigits (t : List Char) : ℤ :=
  match t with
  | '-' :: t2 =>
      let ds := t2.takeWhile Char.isDigit
      if ds.isEmpty then 0 else -(digitsToNat ds : ℤ)
  | '+' :: t2 =>
      let ds := t2.takeWhile Char.isDigit
      if ds.isEmpty then 0 else (digitsToNat ds : ℤ)
  | _ =>
      let ds := t.takeWhile Char.isDigit
      if ds.isEmpty then 0 else (digitsToNat ds : ℤ)

/-- The exponent part of a decimal literal, 0 when absent. -/
def expPart (t : List Char) : ℤ :=
  match t with
  | 'e' :: t2 => expDigits t2
  | 'E' :: t2 => expDigits t2
  | _ => 0

/-- Parse a leading decimal literal (sign, integer part, fraction,
exponent); trailing garbage is ignored, as `parseFloat` does.  `none`
models a `NaN` result.  (Non-finite literals such as `Infinity` are
outside the model.) -/
def parseFloatCore (l : List Char) : Option ℚ :=
  let sl : ℚ × List Char :=
    match l with
    | '-' :: t => (-1, t)
    | '+' :: t => (1, t)
    | _ => (1, l)
  let ip := sl.2.takeWhile Char.isDigit
  let r1 := sl.2.dropWhile Char.isDigit
  let fr : List Char × List Char :=
    match r1 with
    | '.' :: t => (t.takeWhile Char.isDigit, t.dropWhile Char.isDigit)
    | _ => ([], r1)
  if ip.isEmpty && fr.1.isEmpty then none
  else
    let mant : ℚ := (digitsToNat ip : ℚ) + (digitsToNat fr.1 : ℚ) / ((10 : ℚ) ^ fr.1.length)
    some (sl.1 * mant * (10 : ℚ) ^ expPart fr.2)

/-- JavaScript `parseFloat` applied to a cell value: numbers reparse to
themselves, `undefined` stringifies to an unparsable word, and strings
are parsed after skipping leading whitespace. -/
def parseFloatJS : JSVal → Option ℚ
  | .vnum q => some q
  | .vundef => none
  | .vstr s => parseFloatCore (s.toList.dropWhile isJSSpace)

/-- JavaScript addition on numbers (`NaN` propagates). -/
def jsAdd : Option ℚ → Option ℚ → Option ℚ
  | some a, some b => some (a + b)
  | _, _ => none

/-- JavaScript multiplication on numbers; multiplying by an absent
(`undefined`) operand also yields `NaN`. -/
def jsMul : Option ℚ → Option ℚ → Option ℚ
  | some a, some b => some (a * b)
  | _, _ => none

/-- A total map on sectors, mirroring a six-key JavaScript object. -/
structure SectorMap (α : Type) where
  ai : α
  quantum : α
  semiconductors : α
  biotech : α
  space : α
  fintech : α
deriving DecidableEq, Repr

/-- Read a `SectorMap` at a sector key. -/
def SectorMap.get {α : Type} (m : SectorMap α) : Sector → α
  | .ai => m.ai
  | .quantum => m.quantum
  | .semiconductors => m.semiconductors
  | .biotech => m.biotech
  | .space => m.space
  | .fintech => m.fintech

/-- Build a `SectorMap` from a function on sectors. -/
def SectorMap.ofFun {α : Type} (f : Sector → α) : SectorMap α :=
  ⟨f .ai, f .quantum, f .semiconductors, f .biotech, f .space, f .fintech⟩

/-- Overwrite one entry of a `SectorMap`. -/
def SectorMap.set {α : Type} (m : SectorMap α) (k : Sector) (v : α) : SectorMap α :=
  SectorMap.ofFun (fun j => if j = k then v else m.get j)

/-- A weights object: `none` models a sector key absent from it. -/
abbrev SectorWeights := SectorMap (Option ℚ)

/-- `CountryData`: the validated record.  The six sector fields keep
the raw cell values (the validator copies `mappedRow` fields verbatim);
`sectorScores` and `totalScore` are numbers (possibly `NaN`). -/
structure CountryData where
  country : String
  ai : JSVal
  quantum : JSVal
  semiconductors : JSVal
  biotech : JSVal
  space : JSVal
  fintech : JSVal
  totalScore : Option ℚ
  sectorScores : SectorMap (Option ℚ)
deriving DecidableEq, Repr

/-- The raw cell value of a record at a sector key. -/
def CountryData.rawOf (c : CountryData) : Sector → JSVal
  | .ai => c.ai
  | .quantum => c.quantum
  | .semiconductors => c.semiconductors
  | .biotech => c.biotech
  | .space => c.space
  | .fintech => c.fintech

/-- `ValidationResult`. -/
structure ValidationResult where
  isValid : Bool
  errors : List String
  warnings : List String
deriving DecidableEq, Repr

/-- `ProcessedData`. -/
structure ProcessedData where
  data : List CountryData
  validation : ValidationResult
deriving DecidableEq, Repr

/-- Message pushed for a row whose country field is missing, falsy or
not a string (`index` is 0-based, the message is 1-based). -/
def invalidCountryMsg (idx : ℕ) : String :=
  "Invalid country name at row " ++ toString (idx + 1)

/-- Message pushed for a non-numeric sector value. -/
def invalidValueMsg (k : Sector) (c : String) : String :=
  "Invalid " ++ k.key ++ " value for " ++ c

/-- Message pushed for a negative sector value. -/
def negativeValueMsg (k : Sector) (c : String) : String :=
  "Negative " ++ k.key ++ " value for " ++ c

/-- Warning pushed for a sector value greater than 1. -/
def gtOneWarnMsg (k : Sector) (c : String) : String :=
  k.key ++ " value > 1 for " ++ c

/-- Warning pushed for a duplicate country. -/
def dupWarnMsg (c : String) : String :=
  "Duplicate country found: " ++ c

/-- State of the per-row sector loop: accumulated error and warning
messages, the `hasInvalidScore` flag, and the partially built
`sectorScores` object (`none` = key not assigned). -/
structure SectorCheck where
  errs : List String
  warns : List String
  invalid : Bool
  scores : Sector → Option ℚ

/-- One iteration of the sector loop of `validateAndProcessData`:
`parseFloat`, then the NaN / negative / greater-than-1 checks. -/
def checkSector (c : String) (v : JSVal) (k : Sector) (st : SectorCheck) : SectorCheck :=
  match parseFloatJS v with
  | none => { st with errs := st.errs ++ [invalidValueMsg k c], invalid := true }
  | some q =>
    if q < 0 then
      { st with errs := st.errs ++ [negativeValueMsg k c], invalid := true }
    else
      let st1 := if 1 < q then { st with warns := st.warns ++ [gtOneWarnMsg k c] } else st
      { st1 with scores := fun j => if j = k then some q else st1.scores j }

/-- The whole sector loop, over the six sectors in object order. -/
def validateSectors (c : String) (f : Sector → JSVal) : SectorCheck :=
  Sector.all.foldl (fun st k => checkSector c (f k) k st) ⟨[], [], false, fun _ => none⟩

/-- Accumulator of the row loop of `validateAndProcessData`. -/
structure VState where
  errors : List String
  warnings : List String
  countrySet : List String
  processed : List CountryData
deriving Repr

/-- The record pushed for a row that passed all checks: the country is
trimmed, the six sector fields keep the raw cell values, and
`totalScore` is the unweighted sum of the parsed scores. -/
def mkCountryData (row : RawRow) (c : String) (scores : Sector → Option ℚ) : CountryData :=
  { country := jsTrim c
    ai := rowGet row "AI"
    quantum := rowGet row "Quantum"
    semiconductors := rowGet row "Semiconductors"
    biotech := rowGet row "Biotech"
    space := rowGet row "Space"
    fintech := rowGet row "Fintech"
    totalScore := some (Sector.all.foldl (fun a k => a + (scores k).getD 0) 0)
    sectorScores := SectorMap.ofFun scores }

/-- The body of the `rawData.forEach` row loop: skip empty rows,
validate the country field, check for duplicates (first occurrence
wins; the country is recorded as seen before sector validation), then
validate the six sector values and push the record if none failed. -/
def processRow (idx : ℕ) (st : VState) (row : RawRow) : VState :=
  if row.isEmpty then st
  else
    match rowGet row "Country" with
    | JSVal.vstr c =>
      if c = "" then { st with errors := st.errors ++ [invalidCountryMsg idx] }
      else if st.countrySet.contains c then
        { st with warnings := st.warnings ++ [dupWarnMsg c] }
      else
        let st1 := { st with countrySet := st.countrySet ++ [c] }
        let chk := validateSectors c (fun k => rowGet row (Sector.col k))
        let st2 := { st1 with errors := st1.errors ++ chk.errs,
                              warnings := st1.warnings ++ chk.warns }
        if chk.invalid then st2
        else { st2 with processed := st2.processed ++ [mkCountryData row c chk.scores] }
    | _ => { st with errors := st.errors ++ [invalidCountryMsg idx] }

/-- The row loop with its running 0-based index. -/
def processRows (idx : ℕ) (st : VState) : List RawRow → VState
  | [] => st
  | r :: rs => processRows (idx + 1) (processRow idx st r) rs

/-- Initial accumulator of the row loop. -/
def initVState : VState := ⟨[], [], [], []⟩

/-- `validateAndProcessData`: empty-input check, required-column check
on the first row's key set (both short-circuit with a single error),
then the row loop; `isValid` ends up true iff no error was recorded. -/
def validateAndProcessData (rawData : List RawRow) : ProcessedData :=
  if rawData.isEmpty then
    { data := [], validation := { isValid := false, errors := ["No data provided"], warnings := [] } }
  else
    let columns := rowKeys (rawData.headD [])
    let missingColumns := REQUIRED_COLUMNS.filter (fun col => ¬ columns.contains col)
    if ¬ missingColumns.isEmpty then
      { data := [],
        validation := { isValid := false,
                        errors := ["Missing required columns: " ++ String.intercalate ", " missingColumns],
                        warnings := [] } }
    else
      let st := processRows 0 initVState rawData
      { data := st.processed,
        validation := { isValid := st.errors.isEmpty, errors := st.errors, warnings := st.warnings } }

/-- `COUNTRY_NAME_MAPPINGS`. -/
def COUNTRY_NAME_MAPPINGS : List (String × String) :=
  [("USA", "United States of America"),
   ("US", "United States of America"),
   ("United States", "United States of America"),
   ("UK", "United Kingdom"),
   ("PRC", "China"),
   ("People\x27s Republic of China", "China"),
   ("Korea", "South Korea"),
   ("Republic of Korea", "South Korea"),
   ("Korea, Republic of", "South Korea"),
   ("Korea, Dem. Rep.", "North Korea"),
   ("Democratic People\x27s Republic of Korea", "North Korea"),
   ("DPRK", "North Korea"),
   ("Russian Federation", "Russia"),
   ("Czech Republic", "Czechia"),
   ("UAE", "United Arab Emirates")]

/-- `COUNTRY_NAME_MAPPINGS[c] || c`. -/
def standardizeName (c : String) : String :=
  (lookupStr COUNTRY_NAME_MAPPINGS c).getD c

/-- `standardizeCountryNames`. -/
def standardizeCountryNames (data : List CountryData) : List CountryData :=
  data.map (fun item => { item with country := standardizeName item.country })

/-- The per-record body of the scoring map in `processExcelData`:
each sector score is re-parsed from the raw field and multiplied by the
weight, and `totalScore` sums the six products in object order. -/
def scoreRecord (weights : SectorWeights) (c : CountryData) : CountryData :=
  let ss : Sector → Option ℚ := fun k => jsMul (parseFloatJS (c.rawOf k)) (weights.get k)
  { c with sectorScores := SectorMap.ofFun ss
           totalScore := Sector.all.foldl (fun acc k => jsAdd acc (ss k)) (some 0) }

/-- `processExcelData`: validate, short-circuit to `[]` on `!isValid`,
standardize country names, then apply weights. -/
def processExcelData (rawData : List RawRow) (weights : SectorWeights) : List CountryData :=
  let pd := validateAndProcessData rawData
  if pd.validation.isValid then
    (standardizeCountryNames pd.data).map (scoreRecord weights)
  else []

/-! ### Statement-side characterizations and concrete demo inputs -/

/-- The error the sector loop records for sector `k` of a row with
country `c` and cell values `f`, if any: non-numeric and negative
values are errors. -/
def sectorError (c : String) (f : Sector → JSVal) (k : Sector) : Option String :=
  match parseFloatJS (f k) with
  | none => some (invalidValueMsg k c)
  | some q => if q < 0 then some (negativeValueMsg k c) else none

/-- The warning the sector loop records for sector `k`, if any: a
parsed value greater than 1 (on a non-error sector). -/
def sectorWarning (c : String) (f : Sector → JSVal) (k : Sector) : Option String :=
  match parseFloatJS (f k) with
  | none => none
  | some q => if q < 0 then none else if 1 < q then some (gtOneWarnMsg k c) else none

/-- The parsed score the sector loop stores for sector `k`, if it is
not an error. -/
def goodScore (f : Sector → JSVal) (k : Sector) : Option ℚ :=
  match parseFloatJS (f k) with
  | none => none
  | some q => if q < 0 then none else some q

/-- Left-biased choice on optional scores (used to state how the
sector loop updates its partial `sectorScores` object). -/
def orScore (g d : Option ℚ) : Option ℚ :=
  match g with
  | some q => some q
  | none => d

/-- Every raw sector field of the record parses to a finite
non-negative number (the Validator's invariant on emitted records). -/
def goodRecord (r : CountryData) : Prop :=
  ∀ k : Sector, ∃ q : ℚ, parseFloatJS (r.rawOf k) = some q ∧ 0 ≤ q

/-- The raw (unweighted) sector score of a record: its raw cell value
reparsed, defaulting to 0 (never used on validated records). -/
def rawScore (r : CountryData) (k : Sector) : ℚ :=
  (parseFloatJS (r.rawOf k)).getD 0

/-- The numeric value of a weight entry, defaulting to 0 (never used
when the key is present). -/
def weightVal (w : SectorWeights) (k : Sector) : ℚ :=
  (w.get k).getD 0

/-- A fully populated demo row with the given sector values. -/
def demoRow (c : String) (a q s b sp f : ℚ) : RawRow :=
  [("Country", JSVal.vstr c), ("AI", JSVal.vnum a), ("Quantum", JSVal.vnum q),
   ("Semiconductors", JSVal.vnum s), ("Biotech", JSVal.vnum b),
   ("Space", JSVal.vnum sp), ("Fintech", JSVal.vnum f)]

/-- The default weight configuration, all six keys present. -/
def demoWeights : SectorWeights :=
  ⟨some (1/5), some (1/10), some (1/5), some (1/5), some (1/5), some (1/10)⟩

/-- A weights object from which the `ai` key is absent. -/
def demoWeightsNoAI : SectorWeights :=
  ⟨none, some (1/10), some (1/5), some (1/5), some (1/5), some (1/10)⟩

/-- A placeholder record (used only as the `headD` default). -/
def emptyCountryData : CountryData :=
  ⟨"", .vundef, .vundef, .vundef, .vundef, .vundef, .vundef, none,
   SectorMap.ofFun (fun _ => none)⟩

/-- A one-row valid demo batch. -/
def demoRows1 : List RawRow :=
  [demoRow "France" (1/2) (1/2) (1/2) (1/2) (1/2) (1/2)]

/-- The single record produced from `demoRows1` under `demoWeights`. -/
def demoRec1 : CountryData :=
  (processExcelData demoRows1 demoWeights).headD emptyCountryData

/-- The single record produced from `demoRows1` when the `ai` weight
key is absent. -/
def demoRecNoAI : CountryData :=
  (processExcelData demoRows1 demoWeightsNoAI).headD emptyCountryData

/-- A batch whose two countries standardize to the same canonical
name. -/
def demoRowsAlias : List RawRow :=
  [demoRow "USA" (1/2) (1/2) (1/2) (1/2) (1/2) (1/2),
   demoRow "United States" 1 1 1 1 1 1]

/-- A valid batch whose only country is a single space: truthy in
JavaScript, so it passes the country check, and it trims to the empty
string. -/
def demoRowsBlank : List RawRow :=
  [demoRow " " (1/2) (1/2) (1/2) (1/2) (1/2) (1/2)]

/-- A batch whose first row has a negative sector value and whose
second row duplicates the first row's country. -/
def demoRowsDupBad : List RawRow :=
  [demoRow "Atlantis" (-1) 0 0 0 0 0, demoRow "Atlantis" 0 0 0 0 0 0]

/-- A one-row batch with a negative `ai` value. -/
def demoRowsBad : List RawRow :=
  [demoRow "Chile" (-1) 0 0 0 0 0]

/-- A row providing only a country column (all sector columns absent). -/
def demoRowNoCols : RawRow := [("Country", JSVal.vstr "X")]

/-- Sector values with a single defect: a negative `ai` value. -/
def demoNegAI : Sector → JSVal :=
  fun k => match k with
  | .ai => JSVal.vnum (-1)
  | _ => JSVal.vnum (1/2)

/-- A valid row for Kenya. -/
def demoRowK1 : RawRow := demoRow "Kenya" (1/2) (1/2) (1/2) (1/2) (1/2) (1/2)

/-- A second, different row that duplicates Kenya. -/
def demoRowK2 : RawRow := demoRow "Kenya" 1 1 1 1 1 1

/-- The single record from `demoRows1` after bumping the quantum
weight to 1. -/
def demoRec9 : CountryData :=
  (processExcelData demoRows1 (demoWeights.set .quantum (some 1))).headD emptyCountryData

/-- A loop state that has already seen the country `Erewhon`. -/
def demoDupState : VState := ⟨[], [], ["Erewhon"], []⟩

/-- A duplicate row with a non-numeric sector cell. -/
def demoRowE1 : RawRow := [("Country", JSVal.vstr "Erewhon"), ("AI", JSVal.vstr "garbage")]

/-- A duplicate row with negative sector cells. -/
def demoRowE2 : RawRow := demoRow "Erewhon" (-5) (-5) (-5) (-5) (-5) (-5)

/-! ### Basic lemmas -/

lemma Sector.mem_all (k : Sector) : k ∈ Sector.all := by
  cases k <;> simp [Sector.all]

lemma SectorMap.get_ofFun {α : Type} (f : Sector → α) (k : Sector) :
    (SectorMap.ofFun f).get k = f k := by
  cases k <;> rfl

lemma SectorMap.get_set {α : Type} (m : SectorMap α) (k j : Sector) (v : α) :
    (m.set k v).get j = if j = k then v else m.get j := by
  cases j <;> rfl

lemma jsAdd_none_right (a : Option ℚ) : jsAdd a none = none := by
  cases a <;> rfl

lemma jsAdd_none_left (b : Option ℚ) : jsAdd none b = none := by
  cases b <;> rfl

lemma jsMul_none_right (a : Option ℚ) : jsMul a none = none := by
  cases a <;> rfl

lemma lookupStr_mem {α : Type} {l : List (String × α)} {s : String} {v : α}
    (h : lookupStr l s = some v) : (s, v) ∈ l := by
  induction l with
  | nil => exact absurd h (by simp [lookupStr])
  | cons p t ih =>
    obtain ⟨k, w⟩ := p
    by_cases hk : s = k
    · subst hk
      simp [lookupStr] at h
      simp [h]
    · simp [lookupStr, hk] at h
      exact List.mem_cons_of_mem _ (ih h)

lemma mappings_values_not_keys :
    ∀ p ∈ COUNTRY_NAME_MAPPINGS, lookupStr COUNTRY_NAME_MAPPINGS p.2 = none := by
  decide

lemma standardizeName_idem (s : String) :
    standardizeName (standardizeName s) = standardizeName s := by
  unfold standardizeName
  cases h : lookupStr COUNTRY_NAME_MAPPINGS s with
  | none => simp [h]
  | some v =>
    have hv := mappings_values_not_keys (s, v) (lookupStr_mem h)
    simp [h, hv]

/-- Processing a row whose country was already seen only appends the
duplicate warning; nothing else in the state changes, and the sector
cells of the row are never consulted. -/
lemma processRow_dup (idx : ℕ) (st : VState) (row : RawRow) (c : String)
    (hk : row ≠ []) (hc : rowGet row "Country" = JSVal.vstr c)
    (hne : c ≠ "") (hseen : st.countrySet.contains c = true) :
    processRow idx st row = { st with warnings := st.warnings ++ [dupWarnMsg c] } := by
  have hempty : row.isEmpty = false := by
    cases row with
    | nil => exact absurd rfl hk
    | cons a t => rfl
  have hmem : c ∈ st.countrySet := by simpa using hseen
  unfold processRow
  rw [hempty, hc]
  simp [hne, hmem]

/-! ### Claims -/

/-- C4.  On an empty batch, or a batch whose first row lacks one of the
seven required columns, `validateAndProcessData` returns no records,
`isValid = false`, exactly one top-level error (in the missing-column
case listing the missing columns), and no warning — in particular no
per-row error or warning, since the row loop never runs. -/
theorem claim4_fail_fast (rawData : List RawRow) :
    (rawData = [] →
      validateAndProcessData rawData =
        ⟨[], ⟨false, ["No data provided"], []⟩⟩) ∧
    (∀ first rest, rawData = first :: rest →
      (∃ col ∈ REQUIRED_COLUMNS, (rowKeys first).contains col = false) →
      validateAndProcessData rawData =
        ⟨[], ⟨false,
          ["Missing required columns: " ++ String.intercalate ", "
            (REQUIRED_COLUMNS.filter (fun col => ¬ (rowKeys first).contains col))],
          []⟩⟩) := by
  constructor
  · rintro rfl
    rfl
  · rintro first rest rfl ⟨col, hcol, hmiss⟩
    have hne : (REQUIRED_COLUMNS.filter
        (fun col => ¬ (rowKeys first).contains col)) ≠ [] := by
      intro he
      have : col ∈ REQUIRED_COLUMNS.filter
          (fun col => ¬ (rowKeys first).contains col) :=
        List.mem_filter.mpr ⟨hcol, by simpa using hmiss⟩
      rw [he] at this
      exact absurd this (List.not_mem_nil col)
    unfold validateAndProcessData
    simp only [List.isEmpty_cons, Bool.false_eq_true, if_false, List.headD_cons]
    rw [if_pos]
    simpa using hne

/-- C7.  `isValid` is exactly "no error was recorded"; when any error
was recorded `processExcelData` short-circuits to the empty list; and
when no error was recorded (warnings are irrelevant) it returns the
standardized, scored records — one output record per validated record,
so warnings alone never empty the result. -/
theorem claim7_short_circuit (rawData : List RawRow) (w : SectorWeights) :
    ((validateAndProcessData rawData).validation.isValid
        = (validateAndProcessData rawData).validation.errors.isEmpty) ∧
    ((validateAndProcessData rawData).validation.errors ≠ [] →
        processExcelData rawData w = []) ∧
    ((validateAndProcessData rawData).validation.errors = [] →
        processExcelData rawData w
          = (standardizeCountryNames (validateAndProcessData rawData).data).map (scoreRecord w)
        ∧ (processExcelData rawData w).length
          = (validateAndProcessData rawData).data.length) := by
  have hvalid : (validateAndProcessData rawData).validation.isValid
      = (validateAndProcessData rawData).validation.errors.isEmpty := by
    unfold validateAndProcessData
    split
    · rfl
    · dsimp only
      split <;> rfl
  refine ⟨hvalid, ?_, ?_⟩
  · intro herr
    unfold processExcelData
    dsimp only
    rw [hvalid, if_neg]
    simp [List.isEmpty_iff, herr]
  · intro herr
    have : processExcelData rawData w
        = (standardizeCountryNames (validateAndProcessData rawData).data).map (scoreRecord w) := by
      unfold processExcelData
      dsimp only
      rw [hvalid, if_pos]
      simp [List.isEmpty_iff, herr]
    exact ⟨this, by simp [this, standardizeCountryNames]⟩

/-- C8.  `standardizeCountryNames` is idempotent; the alias `USA` maps
to its canonical form, and any name not in the alias table passes
through unchanged. -/
theorem claim8_normalizer_idempotent :
    (∀ data, standardizeCountryNames (standardizeCountryNames data)
        = standardizeCountryNames data) ∧
    standardizeName "USA" = "United States of America" ∧
    (∀ s, lookupStr COUNTRY_NAME_MAPPINGS s = none → standardizeName s = s) := by
  refine ⟨?_, rfl, ?_⟩
  · intro data
    unfold standardizeCountryNames
    rw [List.map_map]
    apply List.map_congr_left
    intro x _
    show { x with country := standardizeName (standardizeName x.country) }
        = { x with country := standardizeName x.country }
    rw [standardizeName_idem]
  · intro s h
    simp [standardizeName, h]

/-- C10.  The duplicate-country check runs before sector validation:
for a row whose country was already seen, the result is independent of
the row's sector cells, and the step records exactly one warning, no
error, and no record — so such a row can never affect `isValid`. -/
theorem claim10_duplicate_checked_first (idx : ℕ) (st : VState) (row1 row2 : RawRow)
    (c : String) (h1 : row1 ≠ []) (h2 : row2 ≠ [])
    (hc1 : rowGet row1 "Country" = JSVal.vstr c)
    (hc2 : rowGet row2 "Country" = JSVal.vstr c)
    (hne : c ≠ "") (hseen : st.countrySet.contains c = true) :
    processRow idx st row1 = { st with warnings := st.warnings ++ [dupWarnMsg c] } ∧
    processRow idx st row1 = processRow idx st row2 ∧
    (processRow idx st row1).errors = st.errors ∧
    (processRow idx st row1).processed = st.processed := by
  have e1 := processRow_dup idx st row1 c h1 hc1 hne hseen
  have e2 := processRow_dup idx st row2 c h2 hc2 hne hseen
  exact ⟨e1, e1.trans e2.symm, by rw [e1], by rw [e1]⟩

/-- C2 counterexample.  With the `ai` key absent from the weights, the
output is NOT the output for the same weights extended with a zero
`ai` weight, and `totalScore` is NaN rather than a finite number: the
claimed implicit-zero-weight policy does not hold. -/
theorem claim2_counterexample :
    processExcelData demoRows1 demoWeightsNoAI
      ≠ processExcelData demoRows1 (demoWeightsNoAI.set .ai (some 0)) ∧
    (processExcelData demoRows1 demoWeightsNoAI).map (fun r => r.totalScore) = [none] := by
  constructor
  · with_unfolding_all decide
  · with_unfolding_all decide

/-- C3 counterexample, refuting both the uniqueness and the
non-emptiness conjuncts.  Uniqueness: two rows with distinct raw
countries (`USA` and `United States`) standardize to the same
canonical name, so the final output contains two records with equal
`country`.  Non-emptiness: a whitespace-only country (a single space)
is truthy and a string, so the row passes validation, and its trimmed
country in the final output is the empty string. -/
theorem claim3_counterexample :
    (processExcelData demoRowsAlias demoWeights).map (fun r => r.country)
      = ["United States of America", "United States of America"] ∧
    ¬ List.Pairwise (fun a b => a ≠ b)
        ((processExcelData demoRowsAlias demoWeights).map (fun r => r.country)) ∧
    (processExcelData demoRowsBlank demoWeights).map (fun r => r.country) = [""] := by
  refine ⟨?_, ?_, ?_⟩
  · with_unfolding_all decide
  · with_unfolding_all decide
  · with_unfolding_all decide

/-- C6 counterexample.  A batch whose two rows share the country
`Atlantis`: the first row is excluded for its negative `ai` value yet
still claims the country, so the second row is dropped as a duplicate
(one warning) and NO record for that country appears in the validator
output — the earlier row's record does not "appear with its data
unchanged". -/
theorem claim6_counterexample :
    (validateAndProcessData demoRowsDupBad).data = [] ∧
    (validateAndProcessData demoRowsDupBad).validation.warnings
      = [dupWarnMsg "Atlantis"] ∧
    (validateAndProcessData demoRowsDupBad).validation.errors
      = [negativeValueMsg .ai "Atlantis"] := by
  refine ⟨by with_unfolding_all decide, by with_unfolding_all decide,
    by with_unfolding_all decide⟩

/-! ### Characterization of the sector loop -/

lemma checkSector_errs (c : String) (f : Sector → JSVal) (k : Sector) (st : SectorCheck) :
    (checkSector c (f k) k st).errs = st.errs ++ (sectorError c f k).toList := by
  unfold checkSector sectorError
  cases hp : parseFloatJS (f k) with
  | none => simp
  | some q =>
    by_cases hq : q < 0
    · simp [hq]
    · by_cases h1 : 1 < q <;> simp [hq, h1]

lemma checkSector_warns (c : String) (f : Sector → JSVal) (k : Sector) (st : SectorCheck) :
    (checkSector c (f k) k st).warns = st.warns ++ (sectorWarning c f k).toList := by
  unfold checkSector sectorWarning
  cases hp : parseFloatJS (f k) with
  | none => simp
  | some q =>
    by_cases hq : q < 0
    · simp [hq]
    · by_cases h1 : 1 < q <;> simp [hq, h1]

lemma checkSector_invalid (c : String) (f : Sector → JSVal) (k : Sector) (st : SectorCheck) :
    (checkSector c (f k) k st).invalid = (st.invalid || (sectorError c f k).isSome) := by
  unfold checkSector sectorError
  cases hp : parseFloatJS (f k) with
  | none => simp
  | some q =>
    by_cases hq : q < 0
    · simp [hq]
    · by_cases h1 : 1 < q <;> simp [hq, h1]

lemma checkSector_scores (c : String) (f : Sector → JSVal) (k : Sector) (st : SectorCheck)
    (j : Sector) :
    (checkSector c (f k) k st).scores j
      = if j = k then orScore (goodScore f k) (st.scores j) else st.scores j := by
  unfold checkSector goodScore orScore
  cases hp : parseFloatJS (f k) with
  | none => by_cases hj : j = k <;> simp [hj]
  | some q =>
    by_cases hq : q < 0
    · by_cases hj : j = k <;> simp [hj, hq]
    · by_cases h1 : 1 < q <;> by_cases hj : j = k <;> simp [hj, hq, h1]

lemma sectorFold_errs (c : String) (f : Sector → JSVal) (ks : List Sector) :
    ∀ st : SectorCheck,
      (ks.foldl (fun st k => checkSector c (f k) k st) st).errs
        = st.errs ++ ks.filterMap (sectorError c f) := by
  induction ks with
  | nil => intro st; simp
  | cons k t ih =>
    intro st
    rw [List.foldl_cons, ih, checkSector_errs]
    cases h : sectorError c f k <;> simp [List.filterMap_cons, h]

lemma sectorFold_warns (c : String) (f : Sector → JSVal) (ks : List Sector) :
    ∀ st : SectorCheck,
      (ks.foldl (fun st k => checkSector c (f k) k st) st).warns
        = st.warns ++ ks.filterMap (sectorWarning c f) := by
  induction ks with
  | nil => intro st; simp
  | cons k t ih =>
    intro st
    rw [List.foldl_cons, ih, checkSector_warns]
    cases h : sectorWarning c f k <;> simp [List.filterMap_cons, h]

lemma sectorFold_invalid (c : String) (f : Sector → JSVal) (ks : List Sector) :
    ∀ st : SectorCheck,
      (ks.foldl (fun st k => checkSector c (f k) k st) st).invalid
        = (st.invalid || ks.any (fun k => (sectorError c f k).isSome)) := by
  induction ks with
  | nil => intro st; simp
  | cons k t ih =>
    intro st
    rw [List.foldl_cons, ih, checkSector_invalid]
    simp [Bool.or_assoc]

lemma sectorFold_scores (c : String) (f : Sector → JSVal) (ks : List Sector) :
    ∀ (st : SectorCheck) (j : Sector),
      (ks.foldl (fun st k => checkSector c (f k) k st) st).scores j
        = if j ∈ ks then orScore (goodScore f j) (st.scores j) else st.scores j := by
  induction ks with
  | nil => intro st j; simp
  | cons k t ih =>
    intro st j
    rw [List.foldl_cons, ih]
    simp only [checkSector_scores]
    by_cases hjt : j ∈ t <;> by_cases hjk : j = k
    · subst hjk
      simp only [if_pos hjt, if_pos rfl, if_pos (List.mem_cons_self j t)]
      cases hg : goodScore f j <;> simp [orScore, hg]
    · have : j ∈ k :: t := List.mem_cons_of_mem k hjt
      simp [hjt, hjk, this]
    · subst hjk
      simp [hjt, List.mem_cons_self]
    · have : j ∉ k :: t := by simp [List.mem_cons, hjk, hjt]
      simp [hjt, hjk, this]

lemma validateSectors_errs (c : String) (f : Sector → JSVal) :
    (validateSectors c f).errs = Sector.all.filterMap (sectorError c f) := by
  unfold validateSectors
  rw [sectorFold_errs]
  rfl

lemma validateSectors_warns (c : String) (f : Sector → JSVal) :
    (validateSectors c f).warns = Sector.all.filterMap (sectorWarning c f) := by
  unfold validateSectors
  rw [sectorFold_warns]
  rfl

lemma validateSectors_invalid (c : String) (f : Sector → JSVal) :
    (validateSectors c f).invalid
      = Sector.all.any (fun k => (sectorError c f k).isSome) := by
  unfold validateSectors
  rw [sectorFold_invalid]
  rfl

lemma validateSectors_scores (c : String) (f : Sector → JSVal) (j : Sector) :
    (validateSectors c f).scores j = goodScore f j := by
  unfold validateSectors
  rw [sectorFold_scores]
  simp [Sector.mem_all, orScore]
  cases goodScore f j <;> simp

/-- A row is sector-valid exactly when no sector records an error; in
that case every sector parses to a non-negative score that is stored. -/
lemma validateSectors_invalid_false (c : String) (f : Sector → JSVal)
    (h : (validateSectors c f).invalid = false) (k : Sector) :
    ∃ q : ℚ, parseFloatJS (f k) = some q ∧ 0 ≤ q
      ∧ (validateSectors c f).scores k = some q := by
  rw [validateSectors_invalid] at h
  have hkn : sectorError c f k = none := by
    cases hsec : sectorError c f k with
    | none => rfl
    | some v =>
      have hfalse := List.any_eq_false.mp h k (Sector.mem_all k)
      rw [hsec] at hfalse
      simp at hfalse
  rw [validateSectors_scores]
  unfold sectorError at hkn
  cases hp : parseFloatJS (f k) with
  | none => rw [hp] at hkn; simp at hkn
  | some q =>
    rw [hp] at hkn
    simp only [] at hkn
    by_cases hq : q < 0
    · simp [hq] at hkn
    · exact ⟨q, rfl, le_of_not_lt hq, by simp [goodScore, hp, hq]⟩

lemma filterMap_eq_of_solo {α β : Type} [DecidableEq α] {e : α → Option β} {k : α} :
    ∀ {l : List α}, l.count k = 1 → (∀ j ∈ l, j ≠ k → e j = none) →
      l.filterMap e = (e k).toList := by
  intro l
  induction l with
  | nil => intro h; simp at h
  | cons a t ih =>
    intro hc hn
    by_cases hak : a = k
    · subst hak
      have hct : t.count a = 0 := by simpa [List.count_cons_self] using hc
      have hnt : a ∉ t := List.count_eq_zero.mp hct
      have htn : t.filterMap e = [] := by
        rw [List.filterMap_eq_nil_iff]
        intro j hj
        exact hn j (List.mem_cons_of_mem a hj) (fun hj2 => hnt (hj2 ▸ hj))
      rw [List.filterMap_cons, htn]
      cases e a <;> simp
    · have hc2 : t.count k = 1 := by simpa [List.count_cons, hak] using hc
      have ha : e a = none := hn a (List.mem_cons_self a t) hak
      rw [List.filterMap_cons, ha]
      exact ih hc2 (fun j hj hjk => hn j (List.mem_cons_of_mem a hj) hjk)

lemma sectorError_isSome_iff (c : String) (f : Sector → JSVal) (k : Sector) :
    (sectorError c f k).isSome = true ↔
      (parseFloatJS (f k) = none ∨ ∃ q : ℚ, parseFloatJS (f k) = some q ∧ q < 0) := by
  unfold sectorError
  cases hp : parseFloatJS (f k) with
  | none => simp
  | some q =>
    by_cases hq : q < 0
    · simp only [hq, if_pos hq, Option.isSome_some]
      exact ⟨fun _ => Or.inr ⟨q, rfl, hq⟩, fun _ => rfl⟩
    · simp only [if_neg hq, Option.isSome_none]
      constructor
      · intro h; exact absurd h (by simp)
      · rintro (h | ⟨q2, hq2, hlt⟩)
        · exact absurd h (by simp)
        · rw [Option.some_inj.mp hq2] at hq; exact absurd hlt hq

/-- C5.  Per-row sector validation on a non-duplicate row with a valid
country: the recorded errors are exactly one per non-numeric sector
(`Invalid ... value for ...`) and one per negative sector
(`Negative ... value for ...`); the recorded warnings are exactly one
per retained sector whose value exceeds 1; the row is excluded iff some
sector is non-numeric or negative (so a `> 1` value alone never
excludes it); and a row whose only defect is one negative sector
produces exactly the one error naming that sector and country. -/
theorem claim5_sector_rules (c : String) (f : Sector → JSVal) :
    (validateSectors c f).errs = Sector.all.filterMap (sectorError c f) ∧
    (validateSectors c f).warns = Sector.all.filterMap (sectorWarning c f) ∧
    ((validateSectors c f).invalid = true ↔
      ∃ k : Sector, parseFloatJS (f k) = none
        ∨ ∃ q : ℚ, parseFloatJS (f k) = some q ∧ q < 0) ∧
    (∀ (idx : ℕ) (st : VState) (row : RawRow), row ≠ [] →
      rowGet row "Country" = JSVal.vstr c → c ≠ "" →
      st.countrySet.contains c = false →
      (fun k => rowGet row (Sector.col k)) = f →
      ((processRow idx st row).processed = st.processed
        ↔ (validateSectors c f).invalid = true)) ∧
    (∀ k : Sector,
      (∀ j : Sector, j ≠ k → ∃ q : ℚ, parseFloatJS (f j) = some q ∧ 0 ≤ q) →
      (∃ q : ℚ, parseFloatJS (f k) = some q ∧ q < 0) →
      (validateSectors c f).errs = [negativeValueMsg k c] ∧
      (validateSectors c f).invalid = true) := by
  refine ⟨validateSectors_errs c f, validateSectors_warns c f, ?_, ?_, ?_⟩
  · rw [validateSectors_invalid]
    rw [List.any_eq_true]
    constructor
    · rintro ⟨k, _, hk⟩
      exact ⟨k, (sectorError_isSome_iff c f k).mp hk⟩
    · rintro ⟨k, hk⟩
      exact ⟨k, Sector.mem_all k, (sectorError_isSome_iff c f k).mpr hk⟩
  · intro idx st row hrow hc hne hnss hf
    have hempty : row.isEmpty = false := by
      cases row with
      | nil => exact absurd rfl hrow
      | cons a t => rfl
    unfold processRow
    rw [hempty, hc]
    simp only [Bool.false_eq_true, if_false]
    rw [if_neg hne, hnss]
    simp only [Bool.false_eq_true, if_false]
    rw [hf]
    by_cases hinv : (validateSectors c f).invalid = true
    · rw [if_pos hinv]
      simpa using hinv
    · rw [if_neg hinv]
      simp only [Bool.not_eq_true] at hinv
      simp [hinv]
  · intro k hothers hneg
    obtain ⟨q, hq, hlt⟩ := hneg
    have hek : sectorError c f k = some (negativeValueMsg k c) := by
      unfold sectorError
      rw [hq]
      simp [hlt]
    have hej : ∀ j ∈ Sector.all, j ≠ k → sectorError c f j = none := by
      intro j _ hjk
      obtain ⟨p, hp, hp0⟩ := hothers j hjk
      unfold sectorError
      rw [hp]
      simp [not_lt.mpr hp0]
    have hcount : Sector.all.count k = 1 := by cases k <;> rfl
    constructor
    · rw [validateSectors_errs, filterMap_eq_of_solo hcount hej, hek]
      rfl
    · rw [validateSectors_invalid, List.any_eq_true]
      exact ⟨k, Sector.mem_all k, by rw [hek]; rfl⟩

/-! ### Structure of the row loop -/

lemma processRow_processed_cases (idx : ℕ) (st : VState) (row : RawRow) :
    (processRow idx st row).processed = st.processed ∨
    ∃ c, rowGet row "Country" = JSVal.vstr c ∧
      (validateSectors c (fun k => rowGet row (Sector.col k))).invalid = false ∧
      (processRow idx st row).processed
        = st.processed
          ++ [mkCountryData row c (validateSectors c (fun k => rowGet row (Sector.col k))).scores] := by
  unfold processRow
  by_cases h1 : row.isEmpty = true
  · rw [if_pos h1]; left; rfl
  · rw [if_neg h1]
    cases hc : rowGet row "Country" with
    | vstr c =>
      dsimp only
      by_cases h2 : c = ""
      · rw [if_pos h2]; left; rfl
      · rw [if_neg h2]
        by_cases h3 : st.countrySet.contains c = true
        · rw [if_pos h3]; left; rfl
        · rw [if_neg h3]
          by_cases h4 : (validateSectors c fun k => rowGet row k.col).invalid = true
          · rw [if_pos h4]; left; rfl
          · rw [if_neg h4]
            right
            exact ⟨c, rfl, by simpa using h4, rfl⟩
    | vnum q => left; rfl
    | vundef => left; rfl

lemma processRows_mem (rows : List RawRow) :
    ∀ (idx : ℕ) (st : VState) (r : CountryData),
      r ∈ (processRows idx st rows).processed →
      r ∈ st.processed ∨
      ∃ row c, rowGet row "Country" = JSVal.vstr c ∧
        (validateSectors c (fun k => rowGet row (Sector.col k))).invalid = false ∧
        r = mkCountryData row c (validateSectors c (fun k => rowGet row (Sector.col k))).scores := by
  induction rows with
  | nil => intro idx st r h; exact Or.inl h
  | cons a t ih =>
    intro idx st r h
    rcases ih (idx + 1) (processRow idx st a) r h with h2 | h2
    · rcases processRow_processed_cases idx st a with h3 | ⟨c, hc, hinv, h3⟩
      · rw [h3] at h2; exact Or.inl h2
      · rw [h3] at h2
        rcases List.mem_append.mp h2 with h4 | h4
        · exact Or.inl h4
        · exact Or.inr ⟨a, c, hc, hinv, by simpa using h4⟩
    · exact Or.inr h2

/-- Every record in the validator's output comes from some row that
passed the country checks and whose six sector values validated. -/
lemma validateAndProcessData_mem (rawData : List RawRow) (r : CountryData)
    (hr : r ∈ (validateAndProcessData rawData).data) :
    ∃ row c, rowGet row "Country" = JSVal.vstr c ∧
      (validateSectors c (fun k => rowGet row (Sector.col k))).invalid = false ∧
      r = mkCountryData row c (validateSectors c (fun k => rowGet row (Sector.col k))).scores := by
  unfold validateAndProcessData at hr
  split at hr
  · simp at hr
  · dsimp only at hr
    split at hr
    · simp at hr
    · rcases processRows_mem rawData 0 initVState r hr with h | h
      · exact absurd h (by simp [initVState])
      · exact h

lemma mkCountryData_rawOf (row : RawRow) (c : String) (scores : Sector → Option ℚ)
    (k : Sector) :
    (mkCountryData row c scores).rawOf k = rowGet row (Sector.col k) := by
  cases k <;> rfl

lemma scoreRecord_country (w : SectorWeights) (c : CountryData) :
    (scoreRecord w c).country = c.country := rfl

lemma scoreRecord_rawOf (w : SectorWeights) (c : CountryData) (k : Sector) :
    (scoreRecord w c).rawOf k = c.rawOf k := by
  cases k <;> rfl

lemma setCountry_rawOf (r : CountryData) (s : String) (k : Sector) :
    ({ r with country := s } : CountryData).rawOf k = r.rawOf k := by
  cases k <;> rfl

/-- Every record in the pipeline's final output is the scored version
of a standardized validator record. -/
lemma processExcelData_mem (rawData : List RawRow) (w : SectorWeights) (r : CountryData)
    (hr : r ∈ processExcelData rawData w) :
    ∃ x ∈ (validateAndProcessData rawData).data,
      r = scoreRecord w { x with country := standardizeName x.country } := by
  unfold processExcelData at hr
  dsimp only at hr
  split at hr
  · obtain ⟨y, hy, hyr⟩ := List.mem_map.mp hr
    obtain ⟨x, hx, hxy⟩ := List.mem_map.mp hy
    exact ⟨x, hx, by rw [← hyr, ← hxy]⟩
  · simp at hr

/-- C1.  Every record emitted by the scoring stage has `totalScore`
equal to the dot product of its six raw sector scores with the current
weights, taken in the fixed order ai, quantum, semiconductors, biotech,
space, fintech.  In this exact-rational model of JavaScript arithmetic
the equality is exact, hence well within the `1e-9` tolerance. -/
theorem claim1_totalScore_dot_product (rawData : List RawRow) (w : SectorWeights)
    (hw : ∀ k : Sector, (w.get k).isSome = true)
    (r : CountryData) (hr : r ∈ processExcelData rawData w) :
    r.totalScore = some
      (rawScore r .ai * weightVal w .ai + rawScore r .quantum * weightVal w .quantum
        + rawScore r .semiconductors * weightVal w .semiconductors
        + rawScore r .biotech * weightVal w .biotech
        + rawScore r .space * weightVal w .space
        + rawScore r .fintech * weightVal w .fintech) := by
  obtain ⟨x, hx, hrx⟩ := processExcelData_mem rawData w r hr
  obtain ⟨row, c, hc, hinv, hxmk⟩ := validateAndProcessData_mem rawData x hx
  have hgood : ∀ k : Sector, ∃ q : ℚ, parseFloatJS (x.rawOf k) = some q := by
    intro k
    obtain ⟨q, hq, _, _⟩ := validateSectors_invalid_false c _ hinv k
    exact ⟨q, by rw [hxmk, mkCountryData_rawOf]; exact hq⟩
  have hwv : ∀ k : Sector, w.get k = some (weightVal w k) := by
    intro k
    cases hwk : w.get k with
    | none =>
      have hk := hw k
      rw [hwk] at hk
      exact absurd hk (by simp)
    | some v => rw [weightVal, hwk]; rfl
  have hraw : ∀ k : Sector, r.rawOf k = x.rawOf k := by
    intro k
    rw [hrx, scoreRecord_rawOf, setCountry_rawOf]
  have hrs : ∀ (k : Sector) (qk : ℚ), parseFloatJS (x.rawOf k) = some qk → rawScore r k = qk := by
    intro k qk hqk
    rw [rawScore, hraw, hqk]
    rfl
  obtain ⟨qa, hqa⟩ := hgood .ai
  obtain ⟨qq, hqq⟩ := hgood .quantum
  obtain ⟨qs, hqs⟩ := hgood .semiconductors
  obtain ⟨qb, hqb⟩ := hgood .biotech
  obtain ⟨qp, hqp⟩ := hgood .space
  obtain ⟨qf, hqf⟩ := hgood .fintech
  have htot : r.totalScore = some
      (0 + qa * weightVal w .ai + qq * weightVal w .quantum
        + qs * weightVal w .semiconductors + qb * weightVal w .biotech
        + qp * weightVal w .space + qf * weightVal w .fintech) := by
    rw [hrx]
    show (scoreRecord w { x with country := standardizeName x.country }).totalScore = _
    unfold scoreRecord
    dsimp only
    simp only [Sector.all, List.foldl_cons, List.foldl_nil, setCountry_rawOf]
    rw [hqa, hqq, hqs, hqb, hqp, hqf,
        hwv .ai, hwv .quantum, hwv .semiconductors, hwv .biotech, hwv .space, hwv .fintech]
    simp only [jsMul, jsAdd]
  rw [htot, hrs .ai qa hqa, hrs .quantum qq hqq, hrs .semiconductors qs hqs,
      hrs .biotech qb hqb, hrs .space qp hqp, hrs .fintech qf hqf, zero_add]

/-- C9.  Two weight configurations that differ only in sector `k`
produce outputs of the same length whose records agree pairwise on
`country`, on every raw sector field, and on the weighted
`sectorScores` entry of every sector other than `k` — only
`totalScore` and sector `k`'s weighted contribution can change. -/
theorem claim9_single_weight_frame (rawData : List RawRow) (w1 w2 : SectorWeights)
    (k : Sector) (hk : ∀ j : Sector, j ≠ k → w1.get j = w2.get j) :
    (processExcelData rawData w1).length = (processExcelData rawData w2).length ∧
    ∀ p ∈ (processExcelData rawData w1).zip (processExcelData rawData w2),
      p.1.country = p.2.country ∧
      (∀ s : Sector, p.1.rawOf s = p.2.rawOf s) ∧
      (∀ j : Sector, j ≠ k → p.1.sectorScores.get j = p.2.sectorScores.get j) := by
  unfold processExcelData
  dsimp only
  split
  · constructor
    · simp
    · intro p hp
      rw [List.zip_map'] at hp
      obtain ⟨x, hx, hpx⟩ := List.mem_map.mp hp
      rw [← hpx]
      refine ⟨rfl, fun s => by rw [scoreRecord_rawOf, scoreRecord_rawOf], fun j hj => ?_⟩
      show (scoreRecord w1 x).sectorScores.get j = (scoreRecord w2 x).sectorScores.get j
      unfold scoreRecord
      dsimp only
      rw [SectorMap.get_ofFun, SectorMap.get_ofFun, hk j hj]
  · simp

/-- C2 corrected.  When sector key `k` is absent from the weights the
scorer does not fail and leaves every other sector's contribution as in
the zero-extended run, but sector `k`'s contribution and `totalScore`
are NaN (`none`), not finite numbers. -/
theorem claim2_missing_weight_nan (rawData : List RawRow) (w : SectorWeights)
    (k : Sector) (hk : w.get k = none) :
    (processExcelData rawData w).length
      = (processExcelData rawData (w.set k (some 0))).length ∧
    (∀ r ∈ processExcelData rawData w,
      r.sectorScores.get k = none ∧ r.totalScore = none) ∧
    ∀ p ∈ (processExcelData rawData w).zip (processExcelData rawData (w.set k (some 0))),
      p.1.country = p.2.country ∧
      (∀ s : Sector, p.1.rawOf s = p.2.rawOf s) ∧
      (∀ j : Sector, j ≠ k → p.1.sectorScores.get j = p.2.sectorScores.get j) := by
  have hagree : ∀ j : Sector, j ≠ k → w.get j = (w.set k (some 0)).get j := by
    intro j hj
    rw [SectorMap.get_set]
    simp [hj]
  refine ⟨?_, ?_, ?_⟩
  · unfold processExcelData
    dsimp only
    split
    · simp
    · rfl
  · intro r hr
    obtain ⟨x, _, hrx⟩ := processExcelData_mem rawData w r hr
    constructor
    · rw [hrx]
      show (scoreRecord w _).sectorScores.get k = none
      unfold scoreRecord
      dsimp only
      rw [SectorMap.get_ofFun, hk, jsMul_none_right]
    · rw [hrx]
      show (scoreRecord w _).totalScore = none
      unfold scoreRecord
      dsimp only
      cases k <;>
        simp [Sector.all, hk, jsMul_none_right, jsAdd_none_right, jsAdd_none_left]
  · unfold processExcelData
    dsimp only
    split
    · intro p hp
      rw [List.zip_map'] at hp
      obtain ⟨x, hx, hpx⟩ := List.mem_map.mp hp
      rw [← hpx]
      refine ⟨rfl, fun s => by rw [scoreRecord_rawOf, scoreRecord_rawOf], fun j hj => ?_⟩
      show (scoreRecord w x).sectorScores.get j
          = (scoreRecord (w.set k (some 0)) x).sectorScores.get j
      unfold scoreRecord
      dsimp only
      rw [SectorMap.get_ofFun, SectorMap.get_ofFun, hagree j hj]
    · simp

/-! ### Trimming -/

lemma dropWhile_dropWhile {α : Type} (p : α → Bool) (l : List α) :
    (l.dropWhile p).dropWhile p = l.dropWhile p := by
  induction l with
  | nil => rfl
  | cons a t ih =>
    by_cases h : p a = true
    · rw [List.dropWhile_cons, if_pos h, ih]
    · rw [List.dropWhile_cons, if_neg h, List.dropWhile_cons, if_neg h]

lemma dropWhile_head_not {α : Type} (p : α → Bool) (l : List α) :
    ∀ c, (l.dropWhile p).head? = some c → p c = false := by
  induction l with
  | nil => intro c h; simp at h
  | cons a t ih =>
    intro c h
    by_cases ha : p a = true
    · rw [List.dropWhile_cons, if_pos ha] at h
      exact ih c h
    · rw [List.dropWhile_cons, if_neg ha] at h
      simp only [List.head?_cons, Option.some_inj] at h
      rw [← h]
      simpa using ha

lemma dropWhile_eq_self_of_head {α : Type} (p : α → Bool) (l : List α)
    (h : ∀ c, l.head? = some c → p c = false) : l.dropWhile p = l := by
  cases l with
  | nil => rfl
  | cons a t =>
    have := h a rfl
    rw [List.dropWhile_cons, if_neg (by simp [this])]

/-- `trim` is idempotent: a trimmed string trims to itself. -/
lemma jsTrim_idem (s : String) : jsTrim (jsTrim s) = jsTrim s := by
  unfold jsTrim
  have htl : ∀ l : List Char, (String.mk l).toList = l := fun _ => rfl
  rw [htl]
  have h1 : ((s.toList.dropWhile isJSSpace).reverse.dropWhile isJSSpace).reverse.dropWhile
      isJSSpace = ((s.toList.dropWhile isJSSpace).reverse.dropWhile isJSSpace).reverse := by
    apply dropWhile_eq_self_of_head
    intro c hc
    rw [List.head?_reverse] at hc
    obtain ⟨t, ht⟩ := List.dropWhile_suffix
      (l := (s.toList.dropWhile isJSSpace).reverse) isJSSpace
    have hBne : (s.toList.dropWhile isJSSpace).reverse.dropWhile isJSSpace ≠ [] := by
      intro h0
      rw [h0] at hc
      simp at hc
    have hlast := List.getLast?_append_of_ne_nil t hBne
    rw [ht, List.getLast?_reverse] at hlast
    rw [← hlast] at hc
    exact dropWhile_head_not isJSSpace s.toList c hc
  rw [h1, List.reverse_reverse, dropWhile_dropWhile]

/-- Every canonical name in the alias table is already trimmed. -/
lemma mappings_trimmed : ∀ pr ∈ COUNTRY_NAME_MAPPINGS, jsTrim pr.2 = pr.2 := by
  decide

lemma standardizeName_trimmed (s : String) (h : jsTrim s = s) :
    jsTrim (standardizeName s) = standardizeName s := by
  unfold standardizeName
  cases hl : lookupStr COUNTRY_NAME_MAPPINGS s with
  | none => simpa using h
  | some v => simpa using mappings_trimmed (s, v) (lookupStr_mem hl)

lemma mkCountryData_country (row : RawRow) (c : String) (scores : Sector → Option ℚ) :
    (mkCountryData row c scores).country = jsTrim c := rfl

/-- C3 corrected.  Every record in the pipeline's final output carries
a trimmed `country` string.  The other two conjuncts of the original
claim fail — see the counterexample: uniqueness of the final country
values fails because duplicates are detected on the raw names before
standardization and distinct raw aliases can standardize to the same
canonical name; non-emptiness fails because a whitespace-only raw
country passes validation and trims to the empty string. -/
theorem claim3_country_trimmed (rawData : List RawRow) (w : SectorWeights)
    (r : CountryData) (hr : r ∈ processExcelData rawData w) :
    jsTrim r.country = r.country := by
  obtain ⟨x, hx, hrx⟩ := processExcelData_mem rawData w r hr
  obtain ⟨row, c, _, _, hxmk⟩ := validateAndProcessData_mem rawData x hx
  have hxc : x.country = jsTrim c := by rw [hxmk, mkCountryData_country]
  rw [hrx, scoreRecord_country]
  show jsTrim (standardizeName x.country) = standardizeName x.country
  exact standardizeName_trimmed _ (by rw [hxc, jsTrim_idem])

/-! ### Duplicate handling across the batch -/

lemma processRows_append (l1 l2 : List RawRow) :
    ∀ (i : ℕ) (st : VState),
      processRows i st (l1 ++ l2)
        = processRows (i + l1.length) (processRows i st l1) l2 := by
  induction l1 with
  | nil => intro i st; simp [processRows]
  | cons a t ih =>
    intro i st
    show processRows (i + 1) (processRow i st a) (t ++ l2) = _
    rw [ih (i + 1) (processRow i st a)]
    have harith : i + 1 + t.length = i + (a :: t).length := by
      simp [List.length_cons]
      omega
    rw [harith]
    rfl

lemma processRow_countrySet_sub (idx : ℕ) (st : VState) (row : RawRow) :
    ∃ l, (processRow idx st row).countrySet = st.countrySet ++ l := by
  unfold processRow
  by_cases h1 : row.isEmpty = true
  · rw [if_pos h1]; exact ⟨[], by simp⟩
  · rw [if_neg h1]
    cases hc : rowGet row "Country" with
    | vstr c =>
      dsimp only
      by_cases h2 : c = ""
      · rw [if_pos h2]; exact ⟨[], by simp⟩
      · rw [if_neg h2]
        by_cases h3 : st.countrySet.contains c = true
        · rw [if_pos h3]; exact ⟨[], by simp⟩
        · rw [if_neg h3]
          by_cases h4 : (validateSectors c fun k => rowGet row k.col).invalid = true
          · rw [if_pos h4]; exact ⟨[c], rfl⟩
          · rw [if_neg h4]; exact ⟨[c], rfl⟩
    | vnum q => exact ⟨[], by simp⟩
    | vundef => exact ⟨[], by simp⟩

lemma processRow_processed_sub (idx : ℕ) (st : VState) (row : RawRow) :
    ∃ l, (processRow idx st row).processed = st.processed ++ l := by
  rcases processRow_processed_cases idx st row with h | ⟨c, _, _, h⟩
  · exact ⟨[], by simp [h]⟩
  · exact ⟨_, h⟩

lemma processRows_countrySet_sub (rows : List RawRow) :
    ∀ (i : ℕ) (st : VState),
      ∃ l, (processRows i st rows).countrySet = st.countrySet ++ l := by
  induction rows with
  | nil => intro i st; exact ⟨[], by simp [processRows]⟩
  | cons a t ih =>
    intro i st
    obtain ⟨l1, h1⟩ := processRow_countrySet_sub i st a
    obtain ⟨l2, h2⟩ := ih (i + 1) (processRow i st a)
    exact ⟨l1 ++ l2, by rw [processRows, h2, h1, List.append_assoc]⟩

lemma processRows_processed_sub (rows : List RawRow) :
    ∀ (i : ℕ) (st : VState),
      ∃ l, (processRows i st rows).processed = st.processed ++ l := by
  induction rows with
  | nil => intro i st; exact ⟨[], by simp [processRows]⟩
  | cons a t ih =>
    intro i st
    obtain ⟨l1, h1⟩ := processRow_processed_sub i st a
    obtain ⟨l2, h2⟩ := ih (i + 1) (processRow i st a)
    exact ⟨l1 ++ l2, by rw [processRows, h2, h1, List.append_assoc]⟩

/-- After processing a row with a valid (non-empty string) country,
that country is in the seen set. -/
lemma processRow_seen (idx : ℕ) (st : VState) (row : RawRow) (c : String)
    (hk : row ≠ []) (hc : rowGet row "Country" = JSVal.vstr c) (hne : c ≠ "") :
    c ∈ (processRow idx st row).countrySet := by
  by_cases hseen : st.countrySet.contains c = true
  · rw [processRow_dup idx st row c hk hc hne hseen]
    simpa using hseen
  · have hempty : row.isEmpty = false := by
      cases row with
      | nil => exact absurd rfl hk
      | cons a t => rfl
    unfold processRow
    rw [hempty, hc]
    simp only [Bool.false_eq_true, if_false]
    rw [if_neg hne]
    rw [if_neg hseen]
    by_cases h4 : (validateSectors c fun k => rowGet row k.col).invalid = true
    · rw [if_pos h4]
      exact List.mem_append_right _ (List.mem_singleton.mpr rfl)
    · rw [if_neg h4]
      exact List.mem_append_right _ (List.mem_singleton.mpr rfl)

/-- Processing the first occurrence of a country whose sectors all
validate appends exactly the record built from that row. -/
lemma processRow_first (idx : ℕ) (st : VState) (row : RawRow) (c : String)
    (hk : row ≠ []) (hc : rowGet row "Country" = JSVal.vstr c) (hne : c ≠ "")
    (hfresh : st.countrySet.contains c = false)
    (hinv : (validateSectors c (fun k => rowGet row (Sector.col k))).invalid = false) :
    (processRow idx st row).processed
      = st.processed
        ++ [mkCountryData row c (validateSectors c (fun k => rowGet row (Sector.col k))).scores] := by
  have hempty : row.isEmpty = false := by
    cases row with
    | nil => exact absurd rfl hk
    | cons a t => rfl
  unfold processRow
  rw [hempty, hc]
  simp only [Bool.false_eq_true, if_false]
  rw [if_neg hne]
  rw [if_neg (by rw [hfresh]; exact Bool.noConfusion)]
  rw [if_neg (by rw [hinv]; exact Bool.noConfusion)]

/-- In the main branch (non-empty input, all required columns present)
the validator's records are the row loop's. -/
lemma validateAndProcessData_data (rawData : List RawRow) (hne : rawData ≠ [])
    (hcols : REQUIRED_COLUMNS.filter
        (fun col => ¬ (rowKeys (rawData.headD [])).contains col) = []) :
    (validateAndProcessData rawData).data = (processRows 0 initVState rawData).processed := by
  unfold validateAndProcessData
  rw [if_neg (by simpa [List.isEmpty_iff] using hne)]
  dsimp only
  rw [if_neg (by rw [hcols]; simp)]

/-- C6 corrected.  If an earlier row already claimed country `c`
(valid non-empty string), a later row with the same raw country is
dropped: processing it appends exactly one duplicate warning and
changes nothing else (no error, no record, no seen-set change), so
`isValid` is unaffected.  If moreover the earlier row was the first
occurrence of `c` and its sector values validate, the record built
from the earlier row appears, unchanged, in the validator output.  (As
originally stated the claim is false: when the earlier row is itself
excluded for a bad sector value, no record for `c` appears at all —
see the counterexample.) -/
theorem claim6_first_occurrence_wins
    (pre0 pre1 post : List RawRow) (row0 row : RawRow) (c : String)
    (hk0 : row0 ≠ []) (hc0 : rowGet row0 "Country" = JSVal.vstr c) (hne : c ≠ "")
    (hk : row ≠ []) (hc : rowGet row "Country" = JSVal.vstr c)
    (hcols : REQUIRED_COLUMNS.filter
        (fun col =>
          ¬ (rowKeys ((pre0 ++ row0 :: (pre1 ++ row :: post)).headD [])).contains col)
        = []) :
    (processRow (pre0 ++ row0 :: pre1).length
        (processRows 0 initVState (pre0 ++ row0 :: pre1)) row
      = { processRows 0 initVState (pre0 ++ row0 :: pre1) with
          warnings := (processRows 0 initVState (pre0 ++ row0 :: pre1)).warnings
            ++ [dupWarnMsg c] }) ∧
    ((validateSectors c (fun k => rowGet row0 (Sector.col k))).invalid = false →
      (processRows 0 initVState pre0).countrySet.contains c = false →
      mkCountryData row0 c (validateSectors c (fun k => rowGet row0 (Sector.col k))).scores
        ∈ (validateAndProcessData (pre0 ++ row0 :: (pre1 ++ row :: post))).data) := by
  have hseen : c ∈ (processRows 0 initVState (pre0 ++ row0 :: pre1)).countrySet := by
    rw [processRows_append]
    have h0 : c ∈ (processRow pre0.length (processRows 0 initVState pre0) row0).countrySet :=
      processRow_seen _ _ row0 c hk0 hc0 hne
    rw [show processRows (0 + pre0.length) (processRows 0 initVState pre0) (row0 :: pre1)
        = processRows (0 + pre0.length + 1)
            (processRow (0 + pre0.length) (processRows 0 initVState pre0) row0) pre1
      from rfl]
    obtain ⟨l, hl⟩ := processRows_countrySet_sub pre1 (0 + pre0.length + 1)
      (processRow (0 + pre0.length) (processRows 0 initVState pre0) row0)
    rw [hl]
    exact List.mem_append_left _ (by simpa using h0)
  constructor
  · exact processRow_dup _ _ row c hk hc hne (by simpa using hseen)
  · intro hinv hfresh
    rw [validateAndProcessData_data _ (by simp) hcols]
    have hsplit : pre0 ++ row0 :: (pre1 ++ row :: post)
        = (pre0 ++ [row0]) ++ (pre1 ++ row :: post) := by simp
    rw [hsplit, processRows_append (pre0 ++ [row0]) (pre1 ++ row :: post) 0 initVState]
    obtain ⟨l, hl⟩ := processRows_processed_sub (pre1 ++ row :: post)
      (0 + (pre0 ++ [row0]).length) (processRows 0 initVState (pre0 ++ [row0]))
    rw [hl]
    apply List.mem_append_left
    rw [processRows_append pre0 [row0] 0 initVState]
    rw [show processRows (0 + pre0.length) (processRows 0 initVState pre0) [row0]
        = processRow (0 + pre0.length) (processRows 0 initVState pre0) row0 from rfl]
    rw [processRow_first _ _ row0 c hk0 hc0 hne hfresh hinv]
    exact List.mem_append_right _ (List.mem_singleton.mpr rfl)

/-! ### Witnesses -/

/-- Witness for C1 at a concrete one-row batch and full weights. -/
theorem claim1_witness :
    demoRec1.totalScore = some
      (rawScore demoRec1 .ai * weightVal demoWeights .ai
        + rawScore demoRec1 .quantum * weightVal demoWeights .quantum
        + rawScore demoRec1 .semiconductors * weightVal demoWeights .semiconductors
        + rawScore demoRec1 .biotech * weightVal demoWeights .biotech
        + rawScore demoRec1 .space * weightVal demoWeights .space
        + rawScore demoRec1 .fintech * weightVal demoWeights .fintech) :=
  claim1_totalScore_dot_product demoRows1 demoWeights (by decide) demoRec1
    (by with_unfolding_all decide)

/-- Witness for the corrected C2 at a concrete record. -/
theorem claim2_witness :
    (processExcelData demoRows1 demoWeightsNoAI).length
      = (processExcelData demoRows1 (demoWeightsNoAI.set .ai (some 0))).length ∧
    demoRecNoAI.sectorScores.get .ai = none ∧ demoRecNoAI.totalScore = none := by
  have h := claim2_missing_weight_nan demoRows1 demoWeightsNoAI .ai rfl
  have h2 := h.2.1 demoRecNoAI (by with_unfolding_all decide)
  exact ⟨h.1, h2.1, h2.2⟩

/-- Witness for the corrected C3 at a concrete record. -/
theorem claim3_witness : jsTrim demoRec1.country = demoRec1.country :=
  claim3_country_trimmed demoRows1 demoWeights demoRec1 (by with_unfolding_all decide)

/-- Witness for C4: the empty batch and a batch missing all six sector
columns. -/
theorem claim4_witness :
    validateAndProcessData [] = ⟨[], ⟨false, ["No data provided"], []⟩⟩ ∧
    validateAndProcessData [demoRowNoCols] = ⟨[], ⟨false,
      ["Missing required columns: " ++ String.intercalate ", "
        (REQUIRED_COLUMNS.filter (fun col => ¬ (rowKeys demoRowNoCols).contains col))],
      []⟩⟩ :=
  ⟨(claim4_fail_fast []).1 rfl,
   (claim4_fail_fast [demoRowNoCols]).2 demoRowNoCols [] rfl ⟨"AI", by decide, by decide⟩⟩

/-- Witness for C5: a row whose only defect is a negative `ai` value
yields exactly one error and is excluded. -/
theorem claim5_witness :
    (validateSectors "Wakanda" demoNegAI).errs = [negativeValueMsg .ai "Wakanda"] ∧
    (validateSectors "Wakanda" demoNegAI).invalid = true := by
  refine (claim5_sector_rules "Wakanda" demoNegAI).2.2.2.2 .ai ?_ ?_
  · intro j hj
    refine ⟨1/2, ?_, by norm_num⟩
    cases j with
    | ai => exact absurd rfl hj
    | quantum => rfl
    | semiconductors => rfl
    | biotech => rfl
    | space => rfl
    | fintech => rfl
  · exact ⟨-1, rfl, by norm_num⟩

/-- Witness for the corrected C6 on a two-row duplicate batch. -/
theorem claim6_witness :
    (processRow ([] ++ demoRowK1 :: []).length
        (processRows 0 initVState ([] ++ demoRowK1 :: [])) demoRowK2
      = { processRows 0 initVState ([] ++ demoRowK1 :: []) with
          warnings := (processRows 0 initVState ([] ++ demoRowK1 :: [])).warnings
            ++ [dupWarnMsg "Kenya"] }) ∧
    mkCountryData demoRowK1 "Kenya"
        (validateSectors "Kenya" (fun k => rowGet demoRowK1 (Sector.col k))).scores
      ∈ (validateAndProcessData ([] ++ demoRowK1 :: ([] ++ demoRowK2 :: []))).data := by
  have h := claim6_first_occurrence_wins [] [] [] demoRowK1 demoRowK2 "Kenya"
    (by decide) rfl (by decide) (by decide) rfl (by decide)
  exact ⟨h.1, h.2 (by with_unfolding_all decide) rfl⟩

/-- Witness for C7: an erroring batch empties the output; an
error-free batch scores every validated record. -/
theorem claim7_witness :
    processExcelData demoRowsBad demoWeights = [] ∧
    processExcelData demoRows1 demoWeights
      = (standardizeCountryNames (validateAndProcessData demoRows1).data).map
          (scoreRecord demoWeights) :=
  ⟨(claim7_short_circuit demoRowsBad demoWeights).2.1 (by with_unfolding_all decide),
   ((claim7_short_circuit demoRows1 demoWeights).2.2 (by with_unfolding_all decide)).1⟩

/-- Witness for C8: an unmapped name passes through unchanged. -/
theorem claim8_witness :
    standardizeCountryNames (standardizeCountryNames []) = standardizeCountryNames [] ∧
    standardizeName "France" = "France" :=
  ⟨claim8_normalizer_idempotent.1 [], claim8_normalizer_idempotent.2.2 "France" (by decide)⟩

/-- Witness for C9 at a concrete pair of weight configurations that
differ only in the quantum weight. -/
theorem claim9_witness :
    (processExcelData demoRows1 demoWeights).length
      = (processExcelData demoRows1 (demoWeights.set .quantum (some 1))).length ∧
    demoRec1.country = demoRec9.country ∧
    demoRec1.sectorScores.get .ai = demoRec9.sectorScores.get .ai := by
  have h := claim9_single_weight_frame demoRows1 demoWeights
    (demoWeights.set .quantum (some 1)) .quantum
    (by intro j hj; rw [SectorMap.get_set]; simp [hj])
  have hp := h.2 (demoRec1, demoRec9) (by with_unfolding_all decide)
  exact ⟨h.1, hp.1, hp.2.2 .ai (by decide)⟩

/-- Witness for C10: two duplicate rows with different garbage sector
cells are treated identically, recording only the duplicate warning. -/
theorem claim10_witness :
    processRow 3 demoDupState demoRowE1
      = { demoDupState with warnings := demoDupState.warnings ++ [dupWarnMsg "Erewhon"] } ∧
    processRow 3 demoDupState demoRowE1 = processRow 3 demoDupState demoRowE2 := by
  have h := claim10_duplicate_checked_first 3 demoDupState demoRowE1 demoRowE2 "Erewhon"
    (by decide) (by decide) rfl rfl (by decide) rfl
  exact ⟨h.1, h.2.1⟩

end TechIndex
